import Mathlib

/-!
Shallow embedding of the `CrossOver` environment
(`ma_gym/envs/crossover/crossover_new.py`).

The embedding models the simulation core: the occupancy grid (`_full_obs`),
the per-agent position table (`agent_pos`), the done flags (`_agent_dones`),
the step counter (`_step_count`), and the operations `__create_grid`,
`_is_cell_vacant`, `__update_agent_pos`, `__update_agent_view`,
`__is_agent_done`, `__init_full_obs`, `reset` and `step`.

NumPy writes into the `(2, 8)` occupancy array are bounds-checked
(negative indices wrap as in NumPy; an index outside `[-size, size)`
raises `IndexError`); a Python `list` read out of range likewise raises
`IndexError`.  Exceptions propagate to the caller with the partially
mutated object state, which the embedding carries explicitly.

Rendering (`render`, `__draw_base_img`), seeding and the observation
scaling of `get_agent_obs` are external collaborators per the design's
scope; `get_agent_obs` is nevertheless embedded (over `ℚ`) for
completeness, though no claim concerns observation values.
-/

namespace CrossOver

/-- `self._grid_shape = (2, 8)`: the number of grid rows. -/
def gridRows : Nat := 2

/-- `self._grid_shape = (2, 8)`: the number of grid columns. -/
def gridCols : Nat := 8

/-- `self.n_agents = 4`. -/
def nAgents : Nat := 4

/-- `self._max_steps = 100`. -/
def maxSteps : Nat := 100

/-- Exceptions the Python code can raise on the modelled paths:
`IndexError` from an out-of-range NumPy or list subscript, and the
`Exception('Action Not found!')` of `__update_agent_pos`. -/
inductive Err where
  | indexError
  | actionNotFound
deriving Repr, DecidableEq

/-- The live occupancy grid `self._full_obs`: a 2×8 array of cell codes,
`-1` = wall, `0` = free, `i+1` = agent `i`. -/
abbrev Grid := List (List Int)

/-- A (row, col) coordinate.  Python ints: candidate positions may be
negative or beyond the grid. -/
abbrev Pos := Int × Int

/-- The mutable object state of a `CrossOver` instance (simulation core
fields only). `agent_pos` is a dict with keys `0..3`, modelled as a
4-element list; `_agent_dones` is a 4-element list. -/
structure State where
  agentPos : List Pos
  fullObs : Grid
  stepCount : Nat
  agentDones : List Bool
deriving Repr, DecidableEq

/-- Result of running a Python method that mutates `self`: either a
normal return or a propagating exception together with the (partially
mutated) object state at the moment of the raise. -/
inductive ExecR where
  | ok (s : State)
  | raised (e : Err) (s : State)
deriving Repr, DecidableEq

/-- NumPy index resolution for one axis of size `size`: indices in
`[0, size)` are used as-is, indices in `[-size, 0)` wrap, anything else
raises `IndexError` (`none`). -/
def npFix (size : Nat) (i : Int) : Option Nat :=
  if 0 ≤ i then
    if i < (size : Int) then some i.toNat else none
  else
    if -(size : Int) ≤ i then some (i + (size : Int)).toNat else none

/-- `self._full_obs[r, c] = v`: bounds-checked NumPy element write into
the 2×8 occupancy array. -/
def npSet (g : Grid) (r c : Int) (v : Int) : Except Err Grid :=
  match npFix gridRows r, npFix gridCols c with
  | some r', some c' => .ok (g.set r' ((g.getD r' []).set c' v))
  | _, _ => .error .indexError

/-- Reading cell `p` of the occupancy array (callers guard bounds, as the
source does in `_is_cell_vacant`). -/
def cellAt (g : Grid) (p : Pos) : Int :=
  (g.getD p.1.toNat []).getD p.2.toNat 0

/-- `__create_grid`: start from all `-1` (walls); set row `2 // 2 = 1`
to `0` ("road in the middle"); set columns `0, 1` and `-1, -2`
(i.e. `7, 6`) to `0`.  Net result for the `(2, 8)` shape: -/
def createGrid : Grid :=
  [[0, 0, -1, -1, -1, -1, 0, 0],
   [0, 0, 0, 0, 0, 0, 0, 0]]

/-- `self.agent_pos[i]` (dict lookup; every call site uses a key in
`0..3`, where the entry is present). -/
def posOf (s : State) (i : Nat) : Pos :=
  (s.agentPos.get? i).getD (0, 0)

/-- `self.init_agent_pos = {0: [0, 1], 1: [2, 1], 2: [0, W-2], 3: [2, W-2]}`
with `W = 8`. -/
def initAgentPosList : List Pos :=
  [(0, 1), (2, 1), (0, 6), (2, 6)]

/-- `self.final_agent_pos = {0: [0, W-1], 1: [2, W-1], 2: [0, 0], 3: [2, 0]}`
with `W = 8`. -/
def finalAgentPos (i : Nat) : Pos :=
  if i = 0 then (0, 7)
  else if i = 1 then (2, 7)
  else if i = 2 then (0, 0)
  else (2, 0)

/-- `self._base_grid[row, col] == -1` (`__wall_exists`; the source reads
without an explicit bounds guard, so the read itself is NumPy
bounds-checked). -/
def wallExists (p : Pos) : Option Bool :=
  match npFix gridRows p.1, npFix gridCols p.2 with
  | some r', some c' => some (((createGrid.getD r' []).getD c' 0) == -1)
  | _, _ => none

/-- `_is_cell_vacant`: in bounds and the live grid holds `0` there. -/
def isCellVacant (g : Grid) (pos : Pos) : Bool :=
  (decide (0 ≤ pos.1 ∧ pos.1 < (gridRows : Int) ∧
           0 ≤ pos.2 ∧ pos.2 < (gridCols : Int)))
    && (cellAt g pos == 0)

/-- `__update_agent_view`: `self._full_obs[pos[0], pos[1]] = agent_i + 1`. -/
def updateAgentView (s : State) (i : Nat) : ExecR :=
  match npSet s.fullObs (posOf s i).1 (posOf s i).2 ((i : Int) + 1) with
  | .ok g => .ok { s with fullObs := g }
  | .error e => .raised e s

/-- The commit branch of `__update_agent_pos` once `next_pos` is known:
if vacant, assign `agent_pos[i] := next`, clear the old cell (the write
target depends only on `curr` and the grid as it was, the position
assignment having only touched `agent_pos`), then `__update_agent_view`;
otherwise stay in place. -/
def movePart (s : State) (i : Nat) (curr next : Pos) : ExecR :=
  if isCellVacant s.fullObs next then
    match npSet s.fullObs curr.1 curr.2 0 with
    | .error e => .raised e { s with agentPos := s.agentPos.set i next }
    | .ok g => updateAgentView { s with agentPos := s.agentPos.set i next, fullObs := g } i
  else .ok s

/-- `__update_agent_pos`: decode the action (0=down, 1=left, 2=up,
3=right, 4=noop, otherwise `raise Exception('Action Not found!')`),
then try to commit the move. -/
def updateAgentPos (s : State) (i : Nat) (move : Int) : ExecR :=
  let curr := posOf s i
  if move = 0 then movePart s i curr (curr.1 + 1, curr.2)
  else if move = 1 then movePart s i curr (curr.1, curr.2 - 1)
  else if move = 2 then movePart s i curr (curr.1 - 1, curr.2)
  else if move = 3 then movePart s i curr (curr.1, curr.2 + 1)
  else if move = 4 then .ok s
  else .raised .actionNotFound s

/-- `__is_agent_done`: `self.agent_pos[agent_i] == self.final_agent_pos[agent_i]`. -/
def isAgentDone (s : State) (i : Nat) : Bool :=
  posOf s i == finalAgentPos i

/-- Outcome of the per-agent loop of `step`: the state and the rewards
list on normal exit, or a propagating exception with the partial state
(the local `rewards` list is lost on a raise). -/
inductive LoopR where
  | ok (s : State) (rewards : List Int)
  | raised (e : Err) (s : State)
deriving Repr, DecidableEq

/-- The `for agent_i, action in enumerate(agents_action)` loop of `step`:
skip agents whose done flag is set; otherwise `__update_agent_pos`, then
`self._agent_dones[agent_i] = self.__is_agent_done(agent_i)` and, if now
done, `rewards[agent_i] = 5`.  Reading `self._agent_dones[agent_i]` out
of range raises `IndexError`. -/
def stepLoop (s : State) (rewards : List Int) (i : Nat) : List Int → LoopR
  | [] => .ok s rewards
  | a :: rest =>
    match s.agentDones.get? i with
    | none => .raised .indexError s
    | some d =>
      if d then stepLoop s rewards (i + 1) rest
      else
        match updateAgentPos s i a with
        | .raised e s' => .raised e s'
        | .ok s1 =>
          let done := isAgentDone s1 i
          let s2 : State := { s1 with agentDones := s1.agentDones.set i done }
          stepLoop s2 (if done then rewards.set i 5 else rewards) (i + 1) rest

/-- `for i in range(self.n_agents): self._agent_dones[i] = True`
(the truncation branch of `step`). -/
def setAllDone (l : List Bool) : List Bool :=
  (List.range nAgents).foldl (fun acc i => acc.set i true) l

/-- Result of `step`: the new object state together with the returned
`rewards` and `self._agent_dones` lists, or a propagating exception with
the partially mutated state.  (The source also returns
`self.get_agent_obs()` and an empty info dict; the observation is
`getAgentObs` of the returned state and no claim concerns it.) -/
inductive StepResult where
  | ok (s : State) (rewards : List Int) (dones : List Bool)
  | raised (e : Err) (s : State)
deriving Repr, DecidableEq

/-- `step(agents_action)` with the construction-time `step_cost = c`:
increment `_step_count`, initialise `rewards = [c] * 4`, run the
per-agent loop, then force all done flags once
`_step_count >= _max_steps`. -/
def step (c : Int) (s : State) (acts : List Int) : StepResult :=
  let s0 : State := { s with stepCount := s.stepCount + 1 }
  match stepLoop s0 (List.replicate nAgents c) 0 acts with
  | .raised e s' => .raised e s'
  | .ok s1 rewards =>
    let s2 : State :=
      if maxSteps ≤ s1.stepCount then { s1 with agentDones := setAllDone s1.agentDones }
      else s1
    .ok s2 rewards s2.agentDones

/-- The `for agent_i, pos in self.agent_pos.items()` loop of
`__init_full_obs` (keys in insertion order `0, 1, 2, 3`). -/
def viewLoop (s : State) : List Nat → ExecR
  | [] => .ok s
  | i :: rest =>
    match updateAgentView s i with
    | .raised e s' => .raised e s'
    | .ok s' => viewLoop s' rest

/-- `__init_full_obs`: `agent_pos := copy(init_agent_pos)`;
`_full_obs := __create_grid()`; then `__update_agent_view(i)` for each
agent.  (`__draw_base_img` follows in the source; rendering is outside
the simulation core.) -/
def initFullObs (s : State) : ExecR :=
  viewLoop { s with agentPos := initAgentPosList, fullObs := createGrid }
    (List.range nAgents)

/-- `reset`: `__init_full_obs()`, then `_step_count = 0` and
`_agent_dones = [False] * 4`.  (The source then returns
`get_agent_obs()`.) -/
def reset (s : State) : ExecR :=
  match initFullObs s with
  | .raised e s' => .raised e s'
  | .ok s' =>
    .ok { s' with stepCount := 0, agentDones := List.replicate nAgents false }

/-- A freshly allocated object at the point of `__init__` just before
`__init_full_obs()` runs: `_full_obs = __create_grid()`, positions and
done flags not yet populated, `_step_count = None` (modelled as `0`;
nothing reads it before `reset` sets it). -/
def freshEnv : State :=
  { agentPos := [], fullObs := createGrid, stepCount := 0, agentDones := [] }

/-- `__init__`'s call to `__init_full_obs()` — the tail of construction. -/
def construct : ExecR :=
  initFullObs freshEnv

/-- `self.action_space = MultiAgentActionSpace([spaces.Discrete(5) for _ in range(2)])`:
the list of per-component discrete sizes.  Note the source iterates
`range(2)`, not `range(self.n_agents)`. -/
def actionSpaceSizes : List Nat :=
  (List.range 2).map fun _ => 5

/-- `get_agent_obs` (partial-observability branch), over `ℚ`:
`[(row+1)/2, (col+1)/8, step_count/100]` per agent. -/
def getAgentObs (s : State) : List (List ℚ) :=
  (List.range nAgents).map fun i =>
    [((posOf s i).1 + 1) / (gridRows : ℚ),
     ((posOf s i).2 + 1) / (gridCols : ℚ),
     (s.stepCount : ℚ) / (maxSteps : ℚ)]

/-- The exception (if any) escaping a mutating call. -/
def raisedErr : ExecR → Option Err
  | .ok _ => none
  | .raised e _ => some e

/-- A position is inside the declared `(2, 8)` grid. -/
def inB (p : Pos) : Prop :=
  0 ≤ p.1 ∧ p.1 < (gridRows : Int) ∧ 0 ≤ p.2 ∧ p.2 < (gridCols : Int)

instance (p : Pos) : Decidable (inB p) := by
  unfold inB; infer_instance

/-- The object state carried by an `ExecR`, whether returned or raised. -/
def execState : ExecR → State
  | .ok s => s
  | .raised _ s => s

/-- The object state carried by a `LoopR`. -/
def loopState : LoopR → State
  | .ok s _ => s
  | .raised _ s => s

/-- The object state carried by a `StepResult`. -/
def stepState : StepResult → State
  | .ok s _ _ => s
  | .raised _ s => s

/-- The grid is a well-formed 2×8 array. -/
def gridWF (g : Grid) : Prop :=
  g.length = gridRows ∧ ∀ row ∈ g, row.length = gridCols

instance (g : Grid) : Decidable (gridWF g) := by
  unfold gridWF; infer_instance

/-! ### Small list helpers -/

theorem getD_set_self {α : Type} (l : List α) (n : Nat) (b d : α) (h : n < l.length) :
    (l.set n b).getD n d = b := by
  rw [List.getD_eq_getElem?_getD, List.getElem?_set_self h]
  rfl

theorem getD_set_ne {α : Type} (l : List α) {n m : Nat} (b d : α) (h : n ≠ m) :
    (l.set n b).getD m d = l.getD m d := by
  rw [List.getD_eq_getElem?_getD, List.getElem?_set_ne h, ← List.getD_eq_getElem?_getD]

theorem get?_set_ne {α : Type} (l : List α) {n m : Nat} (b : α) (h : n ≠ m) :
    (l.set n b).get? m = l.get? m := by
  rw [List.get?_eq_getElem?, List.getElem?_set_ne h, ← List.get?_eq_getElem?]

theorem get?_set_self {α : Type} (l : List α) (n : Nat) (b : α) (h : n < l.length) :
    (l.set n b).get? n = some b := by
  rw [List.get?_eq_getElem?, List.getElem?_set_self h]

theorem get?_eq_some_getD {α : Type} (l : List α) (n : Nat) (d : α) (h : n < l.length) :
    l.get? n = some (l.getD n d) := by
  rw [List.get?_eq_getElem?, List.getD_eq_getElem?_getD]
  rw [List.getElem?_eq_getElem h]
  rfl

/-! ### Grid write lemmas -/

/-- The grid produced by a successful in-bounds NumPy write. -/
def setCell (g : Grid) (p : Pos) (v : Int) : Grid :=
  g.set p.1.toNat ((g.getD p.1.toNat []).set p.2.toNat v)

theorem npFix_of_inrange {size : Nat} {i : Int} (h0 : 0 ≤ i) (h1 : i < (size : Int)) :
    npFix size i = some i.toNat := by
  unfold npFix
  rw [if_pos h0, if_pos h1]

theorem npFix_none {size : Nat} {i : Int} (h1 : (size : Int) ≤ i) :
    npFix size i = none := by
  unfold npFix
  rw [if_pos (le_trans (Int.ofNat_nonneg size) h1), if_neg (not_lt.mpr h1)]

theorem npSet_ok {g : Grid} {p : Pos} (hp : inB p) (v : Int) :
    npSet g p.1 p.2 v = .ok (setCell g p v) := by
  obtain ⟨h1, h2, h3, h4⟩ := hp
  unfold npSet
  rw [npFix_of_inrange h1 h2, npFix_of_inrange h3 h4]
  rfl

theorem inB_iff {p : Pos} : inB p ↔ 0 ≤ p.1 ∧ p.1 < 2 ∧ 0 ≤ p.2 ∧ p.2 < 8 :=
  Iff.rfl

theorem gridWF_setCell {g : Grid} (hg : gridWF g) (p : Pos) (v : Int) :
    gridWF (setCell g p v) := by
  by_cases hb : p.1.toNat < g.length
  · obtain ⟨hlen, hrow⟩ := hg
    have hmemrow : g.getD p.1.toNat [] ∈ g := by
      rw [List.getD_eq_getElem?_getD, List.getElem?_eq_getElem hb, Option.getD_some]
      exact List.getElem_mem hb
    constructor
    · rw [setCell, List.length_set, hlen]
    · intro row hmem
      rcases List.mem_or_eq_of_mem_set hmem with h | h
      · exact hrow row h
      · subst h
        rw [List.length_set]
        exact hrow _ hmemrow
  · rw [setCell, List.set_eq_of_length_le (le_of_not_lt hb)]
    exact hg

theorem row_of_gridWF {g : Grid} (hg : gridWF g) {r : Nat} (hr : r < gridRows) :
    (g.getD r []).length = gridCols := by
  obtain ⟨hlen, hrow⟩ := hg
  have hb : r < g.length := by rw [hlen]; exact hr
  rw [List.getD_eq_getElem?_getD, List.getElem?_eq_getElem hb, Option.getD_some]
  exact hrow _ (List.getElem_mem hb)

theorem cellAt_setCell_self {g : Grid} (hg : gridWF g) {p : Pos} (hp : inB p) (v : Int) :
    cellAt (setCell g p v) p = v := by
  obtain ⟨h1, h2, h3, h4⟩ := inB_iff.mp hp
  have hr : p.1.toNat < g.length := by
    have : g.length = 2 := hg.1
    omega
  have hc : p.2.toNat < (g.getD p.1.toNat []).length := by
    have : (g.getD p.1.toNat []).length = 8 :=
      row_of_gridWF hg (show p.1.toNat < 2 by omega)
    omega
  rw [cellAt, setCell, getD_set_self _ _ _ _ hr, getD_set_self _ _ _ _ hc]

theorem cellAt_setCell_ne {g : Grid} {p q : Pos} (hp : inB p) (hq : inB q)
    (hne : q ≠ p) (v : Int) : cellAt (setCell g p v) q = cellAt g q := by
  obtain ⟨hp1, hp2, hp3, hp4⟩ := inB_iff.mp hp
  obtain ⟨hq1, hq2, hq3, hq4⟩ := inB_iff.mp hq
  by_cases hrow : p.1.toNat = q.1.toNat
  · have heq1 : p.1 = q.1 := by omega
    have hcol : p.2.toNat ≠ q.2.toNat := by
      intro h
      exact hne (Prod.ext (by omega) (by omega))
    rw [cellAt, setCell, ← hrow]
    by_cases hb : p.1.toNat < g.length
    · rw [getD_set_self _ _ _ _ hb, getD_set_ne _ _ _ hcol]
      rw [cellAt, heq1]
    · rw [List.set_eq_of_length_le (le_of_not_lt hb)]
      rw [cellAt, heq1]
  · rw [cellAt, setCell, getD_set_ne _ _ _ hrow, cellAt]

theorem isCellVacant_iff {g : Grid} {p : Pos} :
    isCellVacant g p = true ↔ inB p ∧ cellAt g p = 0 := by
  unfold isCellVacant inB
  rw [Bool.and_eq_true, decide_eq_true_eq, beq_iff_eq]

/-! ### The occupancy invariant -/

/-- Occupancy consistency: positions and done flags have one entry per
agent, the grid is well formed, every agent stands in bounds on a cell
coded with its own code, and every cell coded `i + 1` is the cell of
agent `i`. -/
def Consistent (s : State) : Prop :=
  s.agentPos.length = nAgents ∧
  s.agentDones.length = nAgents ∧
  gridWF s.fullObs ∧
  (∀ i < nAgents, inB (posOf s i)) ∧
  (∀ i < nAgents, cellAt s.fullObs (posOf s i) = (i : Int) + 1) ∧
  (∀ r < gridRows, ∀ c < gridCols, ∀ i < nAgents,
      cellAt s.fullObs ((r : Int), (c : Int)) = (i : Int) + 1 →
        posOf s i = ((r : Int), (c : Int)))

instance (s : State) : Decidable (Consistent s) := by
  unfold Consistent; infer_instance

theorem consistent_codePos {s : State} (hc : Consistent s) {p : Pos} (hp : inB p)
    {i : Nat} (hi : i < nAgents) (hcell : cellAt s.fullObs p = (i : Int) + 1) :
    posOf s i = p := by
  obtain ⟨hp1, hp2, hp3, hp4⟩ := hp
  have := hc.2.2.2.2.2 p.1.toNat (by unfold gridRows at hp2 ⊢; omega)
    p.2.toNat (by unfold gridCols at hp4 ⊢; omega) i hi
  have hpeq : ((p.1.toNat : Int), (p.2.toNat : Int)) = p := by
    apply Prod.ext <;> simp <;> omega
  rw [hpeq] at this
  exact this hcell

theorem consistent_distinct {s : State} (hc : Consistent s) :
    ∀ i < nAgents, ∀ j < nAgents, i ≠ j → posOf s i ≠ posOf s j := by
  intro i hi j hj hne heq
  have h1 := hc.2.2.2.2.1 i hi
  have h2 := hc.2.2.2.2.1 j hj
  rw [heq] at h1
  rw [h1] at h2
  have : (i : Int) = (j : Int) := by omega
  exact hne (by exact_mod_cast this)

/-! ### Frame lemmas for `__update_agent_pos` (no preconditions) -/

theorem posOf_set_ne {s : State} {i j : Nat} (hj : j ≠ i) (next : Pos) (g : Grid) :
    posOf { s with agentPos := s.agentPos.set i next, fullObs := g } j = posOf s j := by
  unfold posOf
  show ((s.agentPos.set i next).get? j).getD (0, 0) = _
  rw [get?_set_ne _ _ (fun h => hj h.symm)]

theorem posOf_set_ne2 {s : State} {i j : Nat} (hj : j ≠ i) (next : Pos) :
    posOf { s with agentPos := s.agentPos.set i next } j = posOf s j := by
  unfold posOf
  show ((s.agentPos.set i next).get? j).getD (0, 0) = _
  rw [get?_set_ne _ _ (fun h => hj h.symm)]

theorem movePart_frame (s : State) (i : Nat) (curr next : Pos) :
    (execState (movePart s i curr next)).agentDones = s.agentDones ∧
    (execState (movePart s i curr next)).stepCount = s.stepCount ∧
    (execState (movePart s i curr next)).agentPos.length = s.agentPos.length ∧
    ∀ j, j ≠ i → posOf (execState (movePart s i curr next)) j = posOf s j := by
  unfold movePart updateAgentView
  by_cases hv : isCellVacant s.fullObs next
  · rw [if_pos hv]
    cases h1 : npSet s.fullObs curr.1 curr.2 0 with
    | error e =>
      dsimp only [execState]
      exact ⟨rfl, rfl, List.length_set .., fun j hj => posOf_set_ne2 hj next⟩
    | ok g =>
      dsimp only
      cases h2 : npSet g (posOf { s with agentPos := s.agentPos.set i next, fullObs := g } i).1
          (posOf { s with agentPos := s.agentPos.set i next, fullObs := g } i).2
          ((i : Int) + 1) with
      | error e =>
        dsimp only [execState]
        exact ⟨rfl, rfl, List.length_set .., fun j hj => posOf_set_ne hj next g⟩
      | ok g2 =>
        dsimp only [execState]
        refine ⟨rfl, rfl, List.length_set .., fun j hj => ?_⟩
        have := posOf_set_ne (s := s) hj next g2
        unfold posOf at this ⊢
        exact this
  · rw [if_neg hv]
    exact ⟨rfl, rfl, rfl, fun j _ => rfl⟩

theorem updateAgentPos_frame (s : State) (i : Nat) (a : Int) :
    (execState (updateAgentPos s i a)).agentDones = s.agentDones ∧
    (execState (updateAgentPos s i a)).stepCount = s.stepCount ∧
    (execState (updateAgentPos s i a)).agentPos.length = s.agentPos.length ∧
    ∀ j, j ≠ i → posOf (execState (updateAgentPos s i a)) j = posOf s j := by
  unfold updateAgentPos
  by_cases h0 : a = 0
  · rw [if_pos h0]; exact movePart_frame s i _ _
  rw [if_neg h0]
  by_cases h1 : a = 1
  · rw [if_pos h1]; exact movePart_frame s i _ _
  rw [if_neg h1]
  by_cases h2 : a = 2
  · rw [if_pos h2]; exact movePart_frame s i _ _
  rw [if_neg h2]
  by_cases h3 : a = 3
  · rw [if_pos h3]; exact movePart_frame s i _ _
  rw [if_neg h3]
  by_cases h4 : a = 4
  · rw [if_pos h4]; exact ⟨rfl, rfl, rfl, fun j _ => rfl⟩
  · rw [if_neg h4]; exact ⟨rfl, rfl, rfl, fun j _ => rfl⟩

/-! ### Consistency preservation for one agent's move -/

theorem posOf_set_self {s : State} {i : Nat} (hget : i < s.agentPos.length)
    (next : Pos) (g : Grid) :
    posOf { s with agentPos := s.agentPos.set i next, fullObs := g } i = next := by
  unfold posOf
  show ((s.agentPos.set i next).get? i).getD (0, 0) = next
  rw [get?_set_self _ _ _ hget]
  rfl

theorem movePart_commit {s : State} {i : Nat} {next : Pos}
    (hv : isCellVacant s.fullObs next = true)
    (hcB : inB (posOf s i)) (hnB : inB next) (hget : i < s.agentPos.length) :
    movePart s i (posOf s i) next =
      .ok { s with agentPos := s.agentPos.set i next,
                   fullObs := setCell (setCell s.fullObs (posOf s i) 0) next ((i : Int) + 1) } := by
  unfold movePart
  rw [if_pos hv, npSet_ok hcB 0]
  dsimp only
  unfold updateAgentView
  dsimp only
  rw [posOf_set_self hget next (setCell s.fullObs (posOf s i) 0)]
  rw [npSet_ok hnB ((i : Int) + 1)]

theorem movePart_ok {s : State} {i : Nat} (hc : Consistent s) (hi : i < nAgents)
    (next : Pos) :
    ∃ s', movePart s i (posOf s i) next = .ok s' ∧ Consistent s' := by
  obtain ⟨hposlen, hdonelen, hgwf, hposB, hposCode, hcodePos⟩ := hc
  have hcFull : Consistent s := ⟨hposlen, hdonelen, hgwf, hposB, hposCode, hcodePos⟩
  by_cases hv : isCellVacant s.fullObs next = true
  · obtain ⟨hnB, hn0⟩ := isCellVacant_iff.mp hv
    have hcB : inB (posOf s i) := hposB i hi
    have hcCode : cellAt s.fullObs (posOf s i) = (i : Int) + 1 := hposCode i hi
    have hget : i < s.agentPos.length := by rw [hposlen]; exact hi
    have hgwf1 : gridWF (setCell s.fullObs (posOf s i) 0) := gridWF_setCell hgwf _ _
    set g2 : Grid := setCell (setCell s.fullObs (posOf s i) 0) next ((i : Int) + 1) with hg2
    set s2 : State := { s with agentPos := s.agentPos.set i next, fullObs := g2 } with hs2
    have hpos2i : posOf s2 i = next := posOf_set_self hget next g2
    have hpos2j : ∀ j, j ≠ i → posOf s2 j = posOf s j := fun j hj => posOf_set_ne hj next g2
    refine ⟨s2, movePart_commit hv hcB hnB hget, ?_⟩
    have hgwf2 : gridWF g2 := gridWF_setCell hgwf1 _ _
    have hcell2 : ∀ q, inB q →
        cellAt g2 q = if q = next then (i : Int) + 1
          else if q = posOf s i then 0 else cellAt s.fullObs q := by
      intro q hq
      by_cases hqn : q = next
      · rw [if_pos hqn, hg2, hqn, cellAt_setCell_self hgwf1 hnB]
      · rw [if_neg hqn, hg2, cellAt_setCell_ne hnB hq hqn]
        by_cases hqc : q = posOf s i
        · rw [if_pos hqc, hqc, cellAt_setCell_self hgwf hcB]
        · rw [if_neg hqc, cellAt_setCell_ne hcB hq hqc]
    refine ⟨?_, hdonelen, hgwf2, ?_, ?_, ?_⟩
    · show (s.agentPos.set i next).length = nAgents
      rw [List.length_set]; exact hposlen
    · intro j hj
      by_cases hji : j = i
      · rw [hji, hpos2i]; exact hnB
      · rw [hpos2j j hji]; exact hposB j hj
    · intro j hj
      by_cases hji : j = i
      · subst hji
        rw [hpos2i, hcell2 next hnB, if_pos rfl]
      · have hjB := hposB j hj
        have hjCode := hposCode j hj
        have hjn : posOf s j ≠ next := by
          intro h
          rw [h, hn0] at hjCode
          omega
        have hjc : posOf s j ≠ posOf s i :=
          consistent_distinct hcFull j hj i hi hji
        rw [hpos2j j hji, hcell2 _ hjB, if_neg hjn, if_neg hjc]
        exact hjCode
    · intro r hr c hcol j hj hcell
      have hr2 : r < 2 := hr
      have hc8 : c < 8 := hcol
      have hqB : inB ((r : Int), (c : Int)) := by
        rw [inB_iff]
        exact ⟨show (0 : Int) ≤ (r : Int) by omega,
               show ((r : Int)) < 2 by exact_mod_cast hr2,
               show (0 : Int) ≤ (c : Int) by omega,
               show ((c : Int)) < 8 by exact_mod_cast hc8⟩
      rw [hcell2 _ hqB] at hcell
      by_cases hqn : ((r : Int), (c : Int)) = next
      · rw [if_pos hqn] at hcell
        have : j = i := by omega
        subst this
        rw [hpos2i, hqn]
      · rw [if_neg hqn] at hcell
        by_cases hqc : ((r : Int), (c : Int)) = posOf s i
        · rw [if_pos hqc] at hcell
          omega
        · rw [if_neg hqc] at hcell
          have hold : posOf s j = ((r : Int), (c : Int)) := hcodePos r hr c hcol j hj hcell
          have hji : j ≠ i := by
            intro h
            subst h
            exact hqc hold.symm
          rw [hpos2j j hji]
          exact hold
  · refine ⟨s, ?_, hcFull⟩
    unfold movePart
    rw [if_neg hv]

theorem updateAgentPos_ok {s : State} {i : Nat} {a : Int} (hc : Consistent s)
    (hi : i < nAgents) (ha : 0 ≤ a ∧ a ≤ 4) :
    ∃ s', updateAgentPos s i a = .ok s' ∧ Consistent s' := by
  have h04 : a = 0 ∨ a = 1 ∨ a = 2 ∨ a = 3 ∨ a = 4 := by omega
  unfold updateAgentPos
  rcases h04 with h | h | h | h | h <;> subst h <;> norm_num
  · exact movePart_ok hc hi _
  · exact movePart_ok hc hi _
  · exact movePart_ok hc hi _
  · exact movePart_ok hc hi _
  · exact hc

/-! ### Replicate / `setAllDone` helpers -/

theorem getD_replicate {α : Type} {n : Nat} (a d : α) {j : Nat} (hj : j < n) :
    (List.replicate n a).getD j d = a := by
  rw [List.getD_eq_getElem?_getD, List.getElem?_replicate, if_pos hj]
  rfl

theorem foldl_set_length (idxs : List Nat) (l : List Bool) :
    (idxs.foldl (fun acc i => acc.set i true) l).length = l.length := by
  induction idxs generalizing l with
  | nil => rfl
  | cons x xs ih => rw [List.foldl_cons, ih, List.length_set]

theorem setAllDone_length (l : List Bool) : (setAllDone l).length = l.length :=
  foldl_set_length _ l

theorem setAllDone_getD {l : List Bool} (hl : l.length = nAgents) {i : Nat}
    (hi : i < nAgents) : (setAllDone l).getD i false = true := by
  have h4 : ∃ a b c d, l = [a, b, c, d] := by
    match l, hl with
    | [a, b, c, d], _ => exact ⟨a, b, c, d, rfl⟩
  obtain ⟨a, b, c, d, rfl⟩ := h4
  have hset : setAllDone [a, b, c, d] = [true, true, true, true] := rfl
  rw [hset]
  have hi4 : i < 4 := hi
  interval_cases i <;> rfl

theorem foldl_set_getD_true (idxs : List Nat) (l : List Bool) (j : Nat)
    (h : l.getD j false = true) :
    (idxs.foldl (fun acc i => acc.set i true) l).getD j false = true := by
  induction idxs generalizing l with
  | nil => exact h
  | cons x xs ih =>
    rw [List.foldl_cons]
    apply ih
    by_cases hxj : x = j
    · subst hxj
      by_cases hb : x < l.length
      · rw [getD_set_self _ _ _ _ hb]
      · rw [List.set_eq_of_length_le (le_of_not_lt hb)]
        exact h
    · rw [getD_set_ne _ _ _ hxj]
      exact h

theorem setAllDone_getD_true {l : List Bool} {j : Nat} (h : l.getD j false = true) :
    (setAllDone l).getD j false = true :=
  foldl_set_getD_true _ l j h

/-- "Any agent standing on its goal is flagged done" — the between-steps
invariant that makes the goal bonus fire exactly on first arrival. -/
def AtGoalDone (s : State) : Prop :=
  ∀ i < nAgents, posOf s i = finalAgentPos i → s.agentDones.getD i false = true

instance (s : State) : Decidable (AtGoalDone s) := by
  unfold AtGoalDone; infer_instance

/-! ### The per-agent loop of `step`: main inductions -/

theorem stepLoop_ok (acts : List Int) : ∀ (i : Nat) (s : State) (rew : List Int),
    Consistent s → (∀ a ∈ acts, 0 ≤ a ∧ a ≤ 4) → i + acts.length ≤ nAgents →
    ∃ s' rew', stepLoop s rew i acts = .ok s' rew' ∧ Consistent s' ∧
      s'.stepCount = s.stepCount := by
  induction acts with
  | nil => exact fun i s rew hc _ _ => ⟨s, rew, rfl, hc, rfl⟩
  | cons a rest ih =>
    intro i s rew hc hv hlen
    have hi : i < nAgents := by
      rw [List.length_cons] at hlen
      omega
    have hgetd : s.agentDones.get? i = some (s.agentDones.getD i false) :=
      get?_eq_some_getD _ _ _ (by rw [hc.2.1]; exact hi)
    have hlen2 : (i + 1) + rest.length ≤ nAgents := by
      rw [List.length_cons] at hlen
      omega
    have hvrest : ∀ b ∈ rest, 0 ≤ b ∧ b ≤ 4 :=
      fun b hb => hv b (List.mem_cons_of_mem _ hb)
    simp only [stepLoop]
    rw [hgetd]
    by_cases hd : s.agentDones.getD i false = true
    · rw [hd]
      simp only [if_true]
      exact ih (i + 1) s rew hc hvrest hlen2
    · have hd' : s.agentDones.getD i false = false := by
        cases h : s.agentDones.getD i false
        · rfl
        · exact absurd h hd
      rw [hd']
      simp only [Bool.false_eq_true, if_false]
      obtain ⟨s1, heq, hc1⟩ :=
        updateAgentPos_ok hc hi (hv a (List.mem_cons_self a rest))
      have hframe := updateAgentPos_frame s i a
      rw [heq] at hframe
      rw [heq]
      simp only
      set done := isAgentDone s1 i with hdone
      set s2 : State := { s1 with agentDones := s1.agentDones.set i done } with hs2
      have hc2 : Consistent s2 := by
        refine ⟨hc1.1, ?_, hc1.2.2.1, hc1.2.2.2.1, hc1.2.2.2.2.1, hc1.2.2.2.2.2⟩
        show (s1.agentDones.set i done).length = nAgents
        rw [List.length_set]
        exact hc1.2.1
      obtain ⟨s', rew', hres, hc', hsc⟩ :=
        ih (i + 1) s2 (if done then rew.set i 5 else rew) hc2 hvrest hlen2
      refine ⟨s', rew', hres, hc', ?_⟩
      rw [hsc]
      show s1.stepCount = s.stepCount
      exact hframe.2.1

theorem stepLoop_all_done (acts : List Int) : ∀ (i : Nat) (s : State) (rew : List Int),
    s.agentDones.length = nAgents →
    (∀ j < nAgents, s.agentDones.getD j false = true) →
    i + acts.length ≤ nAgents →
    stepLoop s rew i acts = .ok s rew := by
  induction acts with
  | nil => intro i s rew _ _ _; rfl
  | cons a rest ih =>
    intro i s rew hlen hall hle
    have hi : i < nAgents := by
      rw [List.length_cons] at hle
      omega
    have hget : s.agentDones.get? i = some (s.agentDones.getD i false) :=
      get?_eq_some_getD _ _ _ (by rw [hlen]; exact hi)
    simp only [stepLoop]
    rw [hget, hall i hi]
    simp only [if_true]
    exact ih (i + 1) s rew hlen hall (by rw [List.length_cons] at hle; omega)

theorem stepLoop_done_frame (acts : List Int) : ∀ (i : Nat) (s : State) (rew : List Int)
    (j : Nat), s.agentDones.getD j false = true →
    posOf (loopState (stepLoop s rew i acts)) j = posOf s j ∧
    (loopState (stepLoop s rew i acts)).agentDones.getD j false = true := by
  induction acts with
  | nil => exact fun i s rew j h => ⟨rfl, h⟩
  | cons a rest ih =>
    intro i s rew j h
    simp only [stepLoop]
    cases hget : s.agentDones.get? i with
    | none => exact ⟨rfl, h⟩
    | some d =>
      by_cases hd : d = true
      · subst hd
        simp only [if_true]
        exact ih (i + 1) s rew j h
      · have hdf : d = false := by
          cases d
          · rfl
          · exact absurd rfl hd
        subst hdf
        simp only [Bool.false_eq_true, if_false]
        have hij : j ≠ i := by
          intro hji
          subst hji
          rw [List.getD_eq_getElem?_getD, ← List.get?_eq_getElem?, hget] at h
          simp at h
        cases hup : updateAgentPos s i a with
        | raised e s1 =>
          have hfr := updateAgentPos_frame s i a
          rw [hup] at hfr
          refine ⟨hfr.2.2.2 j hij, ?_⟩
          show s1.agentDones.getD j false = true
          have : s1.agentDones = s.agentDones := hfr.1
          rw [this]
          exact h
        | ok s1 =>
          have hfr := updateAgentPos_frame s i a
          rw [hup] at hfr
          simp only
          set done := isAgentDone s1 i with hdone
          set s2 : State := { s1 with agentDones := s1.agentDones.set i done } with hs2
          have hdones2 : s2.agentDones.getD j false = true := by
            show (s1.agentDones.set i done).getD j false = true
            rw [getD_set_ne _ _ _ (fun hh => hij hh.symm)]
            have : s1.agentDones = s.agentDones := hfr.1
            rw [this]
            exact h
          have hpos2 : posOf s2 j = posOf s j := by
            have h1 : posOf s2 j = posOf s1 j := rfl
            rw [h1]
            exact hfr.2.2.2 j hij
          obtain ⟨hp, hdn⟩ := ih (i + 1) s2 (if done then rew.set i 5 else rew) j hdones2
          exact ⟨hp.trans hpos2, hdn⟩

theorem stepLoop_raises (acts : List Int) : ∀ (i : Nat) (s : State) (rew : List Int)
    (m : Nat) (a : Int),
    acts.get? m = some a →
    ¬(0 ≤ a ∧ a ≤ 4) →
    (∀ j, j < m → s.agentDones.getD (i + j) false = true) →
    s.agentDones.getD (i + m) false = false →
    i + m < s.agentDones.length →
    stepLoop s rew i acts = .raised .actionNotFound s := by
  induction acts with
  | nil =>
    intro i s rew m a hget
    simp at hget
  | cons b rest ih =>
    intro i s rew m a hget hbad hpre hfalse hlt
    cases m with
    | zero =>
      have hba : b = a := by simpa using hget
      subst hba
      have hfalse0 : s.agentDones.getD i false = false := by simpa using hfalse
      have hget0 : s.agentDones.get? i = some (s.agentDones.getD i false) :=
        get?_eq_some_getD _ _ _ (by simpa using hlt)
      simp only [stepLoop]
      rw [hget0, hfalse0]
      simp only [Bool.false_eq_true, if_false]
      have h0 : ¬(b = 0) := by omega
      have h1 : ¬(b = 1) := by omega
      have h2 : ¬(b = 2) := by omega
      have h3 : ¬(b = 3) := by omega
      have h4 : ¬(b = 4) := by omega
      have hbadres : updateAgentPos s i b = .raised .actionNotFound s := by
        unfold updateAgentPos
        rw [if_neg h0, if_neg h1, if_neg h2, if_neg h3, if_neg h4]
      rw [hbadres]
    | succ m2 =>
      have hdone : s.agentDones.getD i false = true := by
        have := hpre 0 (Nat.succ_pos m2)
        simpa using this
      have hget0 : s.agentDones.get? i = some (s.agentDones.getD i false) :=
        get?_eq_some_getD _ _ _ (by omega)
      simp only [stepLoop]
      rw [hget0, hdone]
      simp only [if_true]
      apply ih (i + 1) s rew m2 a
      · simpa using hget
      · exact hbad
      · intro j hj
        have := hpre (j + 1) (by omega)
        rw [show i + 1 + j = i + (j + 1) by omega]
        exact this
      · rw [show i + 1 + m2 = i + (m2 + 1) by omega]
        exact hfalse
      · omega

theorem stepLoop_overflow (acts : List Int) : ∀ (i : Nat) (s : State) (rew : List Int),
    Consistent s → (∀ a ∈ acts, 0 ≤ a ∧ a ≤ 4) → i ≤ nAgents →
    nAgents < i + acts.length →
    ∃ s', stepLoop s rew i acts = .raised .indexError s' ∧
      s'.stepCount = s.stepCount := by
  induction acts with
  | nil =>
    intro i s rew _ _ hle hlt
    rw [List.length_nil] at hlt
    omega
  | cons a rest ih =>
    intro i s rew hc hv hle hlt
    by_cases hi : i < nAgents
    · have hget : s.agentDones.get? i = some (s.agentDones.getD i false) :=
        get?_eq_some_getD _ _ _ (by rw [hc.2.1]; exact hi)
      have hvrest : ∀ b ∈ rest, 0 ≤ b ∧ b ≤ 4 :=
        fun b hb => hv b (List.mem_cons_of_mem _ hb)
      have hlt2 : nAgents < (i + 1) + rest.length := by
        rw [List.length_cons] at hlt
        omega
      simp only [stepLoop]
      rw [hget]
      by_cases hd : s.agentDones.getD i false = true
      · rw [hd]
        simp only [if_true]
        exact ih (i + 1) s rew hc hvrest (by omega) hlt2
      · have hd' : s.agentDones.getD i false = false := by
          cases h : s.agentDones.getD i false
          · rfl
          · exact absurd h hd
        rw [hd']
        simp only [Bool.false_eq_true, if_false]
        obtain ⟨s1, heq, hc1⟩ :=
          updateAgentPos_ok hc hi (hv a (List.mem_cons_self a rest))
        have hframe := updateAgentPos_frame s i a
        rw [heq] at hframe
        rw [heq]
        simp only
        set done := isAgentDone s1 i with hdone
        set s2 : State := { s1 with agentDones := s1.agentDones.set i done } with hs2
        have hc2 : Consistent s2 := by
          refine ⟨hc1.1, ?_, hc1.2.2.1, hc1.2.2.2.1, hc1.2.2.2.2.1, hc1.2.2.2.2.2⟩
          show (s1.agentDones.set i done).length = nAgents
          rw [List.length_set]
          exact hc1.2.1
        obtain ⟨s', hres, hsc⟩ :=
          ih (i + 1) s2 (if done then rew.set i 5 else rew) hc2 hvrest (by omega) hlt2
        refine ⟨s', hres, ?_⟩
        rw [hsc]
        show s1.stepCount = s.stepCount
        exact hframe.2.1
    · have hnone : s.agentDones.get? i = none := by
        rw [List.get?_eq_getElem?, List.getElem?_eq_none]
        rw [hc.2.1]
        omega
      simp only [stepLoop]
      rw [hnone]
      exact ⟨s, rfl, rfl⟩

theorem stepLoop_reward (acts : List Int) : ∀ (i : Nat) (s : State) (rew : List Int)
    (s' : State) (rew' : List Int),
    stepLoop s rew i acts = .ok s' rew' →
    AtGoalDone s →
    s.agentDones.length = nAgents →
    s.agentPos.length = nAgents →
    rew.length = nAgents →
    ((∀ j < nAgents, j < i →
        rew'.getD j 0 = rew.getD j 0 ∧ posOf s' j = posOf s j ∧
        s'.agentDones.getD j false = s.agentDones.getD j false) ∧
     (∀ j < nAgents, i ≤ j →
        rew'.getD j 0 =
          (if posOf s' j = finalAgentPos j ∧ posOf s j ≠ finalAgentPos j
           then 5 else rew.getD j 0)) ∧
     AtGoalDone s' ∧ s'.agentDones.length = nAgents ∧
     s'.agentPos.length = nAgents ∧ rew'.length = nAgents) := by
  induction acts with
  | nil =>
    intro i s rew s' rew' hok hg hdl hpl hrl
    have hs : s = s' ∧ rew = rew' := by
      have : LoopR.ok s rew = .ok s' rew' := hok
      exact ⟨(LoopR.ok.injEq _ _ _ _).mp this |>.1, (LoopR.ok.injEq _ _ _ _).mp this |>.2⟩
    obtain ⟨rfl, rfl⟩ : s = s' ∧ rew = rew' := hs
    refine ⟨fun j _ _ => ⟨rfl, rfl, rfl⟩, fun j _ _ => ?_, hg, hdl, hpl, hrl⟩
    rw [if_neg]
    intro hcon
    exact hcon.2 hcon.1
  | cons a rest ih =>
    intro i s rew s' rew' hok hg hdl hpl hrl
    simp only [stepLoop] at hok
    cases hget : s.agentDones.get? i with
    | none =>
      rw [hget] at hok
      exact absurd hok (by simp)
    | some d =>
      rw [hget] at hok
      have hdval : s.agentDones.getD i false = d := by
        rw [List.getD_eq_getElem?_getD, ← List.get?_eq_getElem?, hget]
        rfl
      by_cases hd : d = true
      · -- agent i already done: skipped
        subst hd
        simp only [if_true] at hok
        obtain ⟨ihA, ihB, ihG, ihDL, ihPL, ihRL⟩ := ih (i + 1) s rew s' rew' hok hg hdl hpl hrl
        refine ⟨fun j hj hji => ihA j hj (by omega), fun j hj hji => ?_, ihG, ihDL, ihPL, ihRL⟩
        by_cases hji2 : j = i
        · subst hji2
          obtain ⟨hr, hp, _⟩ := ihA j hj (by omega)
          rw [hr, hp, if_neg]
          intro hcon
          exact hcon.2 hcon.1
        · exact ihB j hj (by omega)
      · have hdf : d = false := by
          cases d
          · rfl
          · exact absurd rfl hd
        subst hdf
        simp only [Bool.false_eq_true, if_false] at hok
        cases hup : updateAgentPos s i a with
        | raised e s1 =>
          rw [hup] at hok
          exact absurd hok (by simp)
        | ok s1 =>
          rw [hup] at hok
          simp only at hok
          have hfr := updateAgentPos_frame s i a
          rw [hup] at hfr
          dsimp only [execState] at hfr
          obtain ⟨hfrD, hfrC, hfrL, hfrP⟩ := hfr
          have hi4 : i < nAgents := by
            by_contra hcon
            have : s.agentDones.get? i = none := by
              rw [List.get?_eq_getElem?, List.getElem?_eq_none]
              rw [hdl]
              omega
            rw [this] at hget
            exact absurd hget (by simp)
          set done := isAgentDone s1 i with hdone
          set s2 : State := { s1 with agentDones := s1.agentDones.set i done } with hs2
          set rew2 : List Int := if done then rew.set i 5 else rew with hrew2
          have hs1dl : s1.agentDones.length = nAgents := by rw [hfrD]; exact hdl
          have hs2dl : s2.agentDones.length = nAgents := by
            show (s1.agentDones.set i done).length = nAgents
            rw [List.length_set]
            exact hs1dl
          have hs2pl : s2.agentPos.length = nAgents := by
            show s1.agentPos.length = nAgents
            rw [hfrL]
            exact hpl
          have hrew2l : rew2.length = nAgents := by
            rw [hrew2]
            by_cases hdn : done = true
            · rw [if_pos hdn, List.length_set]
              exact hrl
            · rw [if_neg hdn]
              exact hrl
          have hpos2i : posOf s2 i = posOf s1 i := rfl
          have hpos2j : ∀ j, j ≠ i → posOf s2 j = posOf s j := by
            intro j hji
            have h1 : posOf s2 j = posOf s1 j := rfl
            rw [h1]
            exact hfrP j hji
          have hdones2i : s2.agentDones.getD i false = done := by
            show (s1.agentDones.set i done).getD i false = done
            exact getD_set_self _ _ _ _ (by rw [hs1dl]; exact hi4)
          have hdones2j : ∀ j, j ≠ i →
              s2.agentDones.getD j false = s.agentDones.getD j false := by
            intro j hji
            show (s1.agentDones.set i done).getD j false = _
            rw [getD_set_ne _ _ _ (fun hh => hji hh.symm), hfrD]
          have hrew2j : ∀ j, j ≠ i → rew2.getD j 0 = rew.getD j 0 := by
            intro j hji
            rw [hrew2]
            by_cases hdn : done = true
            · rw [if_pos hdn, getD_set_ne _ _ _ (fun hh => hji hh.symm)]
            · rw [if_neg hdn]
          have hrew2i : rew2.getD i 0 = (if done = true then 5 else rew.getD i 0) := by
            rw [hrew2]
            by_cases hdn : done = true
            · rw [if_pos hdn, if_pos hdn]
              exact getD_set_self _ _ _ _ (by rw [hrl]; exact hi4)
            · rw [if_neg hdn, if_neg hdn]
          have hg2 : AtGoalDone s2 := by
            intro k hk hkgoal
            by_cases hki : k = i
            · subst hki
              rw [hdones2i, hdone]
              rw [hpos2i] at hkgoal
              unfold isAgentDone
              rw [beq_iff_eq]
              exact hkgoal
            · rw [hdones2j k hki]
              rw [hpos2j k hki] at hkgoal
              exact hg k hk hkgoal
          have hnotgoal : posOf s i ≠ finalAgentPos i := by
            intro hcon
            have := hg i hi4 hcon
            rw [hdval] at this
            exact absurd this (by simp)
          obtain ⟨ihA, ihB, ihG, ihDL, ihPL, ihRL⟩ :=
            ih (i + 1) s2 rew2 s' rew' hok hg2 hs2dl hs2pl hrew2l
          refine ⟨?_, ?_, ihG, ihDL, ihPL, ihRL⟩
          · intro j hj hji
            obtain ⟨hr, hp, hdn⟩ := ihA j hj (by omega)
            have hjine : j ≠ i := by omega
            exact ⟨hr.trans (hrew2j j hjine), hp.trans (hpos2j j hjine),
              hdn.trans (hdones2j j hjine)⟩
          · intro j hj hji
            by_cases hji2 : j = i
            · subst hji2
              obtain ⟨hr, hp, _⟩ := ihA j hj (by omega)
              rw [hr, hrew2i, hp, hpos2i]
              by_cases hdn : done = true
              · rw [if_pos hdn]
                have hgoal : posOf s1 j = finalAgentPos j := by
                  have := hdn
                  rw [hdone] at this
                  unfold isAgentDone at this
                  rw [beq_iff_eq] at this
                  exact this
                rw [if_pos ⟨hgoal, hnotgoal⟩]
              · rw [if_neg hdn]
                have hngoal : posOf s1 j ≠ finalAgentPos j := by
                  intro hcon
                  apply hdn
                  rw [hdone]
                  unfold isAgentDone
                  rw [beq_iff_eq]
                  exact hcon
                rw [if_neg]
                intro hcon
                exact hngoal hcon.1
            · have hgt : i + 1 ≤ j := by omega
              have := ihB j hj hgt
              rw [this, hrew2j j hji2, hpos2j j hji2]

theorem stepLoop_preserve (acts : List Int) : ∀ (i : Nat) (s : State) (rew : List Int),
    (loopState (stepLoop s rew i acts)).agentDones.length = s.agentDones.length ∧
    (loopState (stepLoop s rew i acts)).stepCount = s.stepCount := by
  induction acts with
  | nil => exact fun i s rew => ⟨rfl, rfl⟩
  | cons a rest ih =>
    intro i s rew
    simp only [stepLoop]
    cases hget : s.agentDones.get? i with
    | none => exact ⟨rfl, rfl⟩
    | some d =>
      by_cases hd : d = true
      · subst hd
        simp only [if_true]
        exact ih (i + 1) s rew
      · have hdf : d = false := by
          cases d
          · rfl
          · exact absurd rfl hd
        subst hdf
        simp only [Bool.false_eq_true, if_false]
        cases hup : updateAgentPos s i a with
        | raised e s1 =>
          have hfr := updateAgentPos_frame s i a
          rw [hup] at hfr
          dsimp only [execState] at hfr
          dsimp only [loopState]
          exact ⟨by rw [hfr.1], hfr.2.1⟩
        | ok s1 =>
          have hfr := updateAgentPos_frame s i a
          rw [hup] at hfr
          dsimp only [execState] at hfr
          simp only
          obtain ⟨hl, hsc⟩ := ih (i + 1)
            { s1 with agentDones := s1.agentDones.set i (isAgentDone s1 i) }
            (if isAgentDone s1 i then rew.set i 5 else rew)
          constructor
          · rw [hl]
            show (s1.agentDones.set i _).length = _
            rw [List.length_set, hfr.1]
          · rw [hsc]
            exact hfr.2.1

/-- Unfolding equation for `step`: dispatch on the loop outcome. -/
theorem step_eq (c : Int) (s : State) (acts : List Int) :
    step c s acts =
      match stepLoop { s with stepCount := s.stepCount + 1 }
          (List.replicate nAgents c) 0 acts with
      | .raised e s' => .raised e s'
      | .ok s1 rewards =>
        .ok (if maxSteps ≤ s1.stepCount
             then { s1 with agentDones := setAllDone s1.agentDones } else s1)
          rewards
          (if maxSteps ≤ s1.stepCount
           then { s1 with agentDones := setAllDone s1.agentDones } else s1).agentDones := by
  unfold step
  dsimp only

/-! ### Concrete states used in witnesses and counterexamples -/

/-- A consistent mid-episode state: the four agents on legal cells of the
2×8 grid, none done, matching occupancy codes. -/
def sWit : State :=
  { agentPos := [(0, 1), (1, 1), (0, 6), (1, 6)],
    fullObs := [[0, 1, -1, -1, -1, -1, 3, 0],
                [0, 2, 0, 0, 0, 0, 4, 0]],
    stepCount := 0,
    agentDones := [false, false, false, false] }

/-- `sWit` with agent 0 flagged done. -/
def sDone0 : State :=
  { sWit with agentDones := [true, false, false, false] }

/-- `sWit` with agent 1 flagged done. -/
def sDone1 : State :=
  { sWit with agentDones := [false, true, false, false] }

/-- `sWit` with every agent flagged done. -/
def sAllDone : State :=
  { sWit with agentDones := [true, true, true, true] }

/-- A consistent state with agent 0 one cell left of its goal (0,7). -/
def sNear : State :=
  { agentPos := [(0, 6), (1, 1), (0, 1), (1, 6)],
    fullObs := [[0, 3, -1, -1, -1, -1, 1, 0],
                [0, 2, 0, 0, 0, 0, 4, 0]],
    stepCount := 0,
    agentDones := [false, false, false, false] }

/-- `sWit` at step count 99, one step before truncation. -/
def s99 : State :=
  { sWit with stepCount := 99 }

/-- The state `step` produces from `s99` under four NOOPs: counter 100,
all done flags forced true by truncation. -/
def s100 : State :=
  { sWit with stepCount := 100, agentDones := [true, true, true, true] }

/-! ### Claims -/

/-- **C1.** The spec claims every stored agent position lies inside the
2×8 grid (`0 ≤ row < 2`, `0 ≤ col < 8`) on a non-wall cell, in every
reachable state including right after construction.  The code violates
this: `init_agent_pos` stores row 2 for agent 1 (and agent 3), which is
outside the two-row grid — not even a queryable cell of the base grid —
and `__init_full_obs` raises `IndexError` writing the occupancy grid
there, so construction itself dies with agent 1's stored position out of
bounds. -/
theorem c1_initial_position_out_of_bounds :
    initAgentPosList.get? 1 = some (2, 1) ∧
    initAgentPosList.get? 3 = some (2, 6) ∧
    ¬ inB (2, 1) ∧
    wallExists (2, 1) = none ∧
    raisedErr construct = some Err.indexError := by
  decide

/-- **C2.** The spec's scenario has agent 0 driven by six RIGHT actions
from (0,1) through (0,2)…(0,7) after a fresh reset, earning reward 5 on
the sixth step.  The scenario can never run: `reset` raises `IndexError`
(placing agent 1 at row 2) before returning, for every starting state.
Moreover cell (0,2) is a wall of the base grid (row 0 is wall except
columns 0, 1, 6, 7), so the first RIGHT move would be silently rejected
even if reset survived. -/
theorem c2_scenario_cannot_start :
    (∀ s : State, raisedErr (reset s) = some Err.indexError) ∧
    cellAt createGrid (0, 2) = -1 ∧
    isCellVacant createGrid (0, 2) = false ∧
    isCellVacant createGrid (0, 7) = true := by
  exact ⟨fun s => rfl, by decide, by decide, by decide⟩

/-- **C9.** The spec claims the action space is one `Discrete(5)`
component per agent, i.e. four components.  The code builds
`[spaces.Discrete(5) for _ in range(2)]` — two components, not
`range(self.n_agents)` — contradicting the code's own `n_agents = 4`.
Grid shape 2×8 and max steps 100 do match the spec. -/
theorem c9_action_space_has_two_components :
    actionSpaceSizes = [5, 5] ∧
    actionSpaceSizes.length = 2 ∧
    nAgents = 4 ∧
    actionSpaceSizes.length ≠ nAgents ∧
    gridRows = 2 ∧ gridCols = 8 ∧ maxSteps = 100 := by
  decide

/-- **C10.** If every done flag is already true, `step` with any
length-4 action list (codes arbitrary, valid or not: skipped agents'
actions are never inspected) returns normally, increments the step
counter, leaves positions and occupancy grid untouched, and returns
rewards all equal to the step cost with every done flag true. -/
theorem c10_step_when_all_done (c : Int) (s : State) (acts : List Int)
    (hdl : s.agentDones.length = nAgents)
    (hall : ∀ i < nAgents, s.agentDones.getD i false = true)
    (hlen : acts.length = nAgents) :
    ∃ s' rew d, step c s acts = .ok s' rew d ∧
      s'.agentPos = s.agentPos ∧
      s'.fullObs = s.fullObs ∧
      s'.stepCount = s.stepCount + 1 ∧
      rew = List.replicate nAgents c ∧
      (∀ i < nAgents, d.getD i false = true) := by
  have hloop : stepLoop { s with stepCount := s.stepCount + 1 }
      (List.replicate nAgents c) 0 acts =
      .ok { s with stepCount := s.stepCount + 1 } (List.replicate nAgents c) :=
    stepLoop_all_done acts 0 _ _ hdl hall (by omega)
  rw [step_eq, hloop]
  dsimp only
  by_cases htr : maxSteps ≤ s.stepCount + 1
  · rw [if_pos htr]
    refine ⟨_, _, _, rfl, rfl, rfl, rfl, rfl, ?_⟩
    intro i hi
    exact setAllDone_getD hdl hi
  · rw [if_neg htr]
    exact ⟨_, _, _, rfl, rfl, rfl, rfl, rfl, hall⟩

theorem c10_step_when_all_done_witness :
    (sAllDone.agentDones.length = nAgents ∧
     (∀ i < nAgents, sAllDone.agentDones.getD i false = true) ∧
     ([9, 9, 9, 9] : List Int).length = nAgents) ∧
    (∃ s' rew d, step 3 sAllDone [9, 9, 9, 9] = .ok s' rew d ∧
      s'.agentPos = sAllDone.agentPos ∧
      s'.fullObs = sAllDone.fullObs ∧
      s'.stepCount = sAllDone.stepCount + 1 ∧
      rew = List.replicate nAgents 3 ∧
      (∀ i < nAgents, d.getD i false = true)) :=
  ⟨⟨by decide, by decide, by decide⟩,
   c10_step_when_all_done 3 sAllDone [9, 9, 9, 9] (by decide) (by decide) (by decide)⟩

/-- **C5.** Done flags are monotone and a done agent is frozen: if agent
`i`'s done flag is true before a `step`, then whatever the outcome of
that call (normal return or a propagating exception), agent `i`'s stored
position is unchanged and its done flag is still true; in particular the
returned done list marks it true.  Iterating over the step calls of an
episode, a done flag never reverts until `reset`. -/
theorem c5_done_monotone (c : Int) (s : State) (acts : List Int) (i : Nat)
    (hdone : s.agentDones.getD i false = true) :
    posOf (stepState (step c s acts)) i = posOf s i ∧
    (stepState (step c s acts)).agentDones.getD i false = true ∧
    (∀ s' rew d, step c s acts = .ok s' rew d → d.getD i false = true) := by
  obtain ⟨hp, hdn⟩ := stepLoop_done_frame acts 0 { s with stepCount := s.stepCount + 1 }
    (List.replicate nAgents c) i hdone
  rw [step_eq]
  cases hloop : stepLoop { s with stepCount := s.stepCount + 1 }
      (List.replicate nAgents c) 0 acts with
  | raised e s1 =>
    rw [hloop] at hp hdn
    dsimp only [loopState] at hp hdn
    dsimp only [stepState]
    exact ⟨hp, hdn, fun s' rew d h => absurd h (by simp)⟩
  | ok s1 rew1 =>
    rw [hloop] at hp hdn
    dsimp only [loopState] at hp hdn
    dsimp only
    by_cases htr : maxSteps ≤ s1.stepCount
    · rw [if_pos htr]
      dsimp only [stepState]
      refine ⟨hp, setAllDone_getD_true hdn, ?_⟩
      intro s' rew d h
      have hd : d = setAllDone s1.agentDones := by
        have := (StepResult.ok.injEq _ _ _ _ _ _).mp h.symm
        exact this.2.2
      rw [hd]
      exact setAllDone_getD_true hdn
    · rw [if_neg htr]
      dsimp only [stepState]
      refine ⟨hp, hdn, ?_⟩
      intro s' rew d h
      have hd : d = s1.agentDones := by
        have := (StepResult.ok.injEq _ _ _ _ _ _).mp h.symm
        exact this.2.2
      rw [hd]
      exact hdn

theorem c5_done_monotone_witness :
    (sDone1.agentDones.getD 1 false = true) ∧
    (posOf (stepState (step 0 sDone1 [4, 4, 4, 4])) 1 = posOf sDone1 1 ∧
     (stepState (step 0 sDone1 [4, 4, 4, 4])).agentDones.getD 1 false = true ∧
     (∀ s' rew d, step 0 sDone1 [4, 4, 4, 4] = .ok s' rew d → d.getD 1 false = true)) :=
  ⟨by decide, c5_done_monotone 0 sDone1 [4, 4, 4, 4] 1 (by decide)⟩

/-- **C6.** Truncation: `reset` sets the step counter to 0 and every
`step` call increments it by exactly 1, so the 100th and every later
step call of an episode runs with `stepCount + 1 ≥ 100 = maxSteps`; any
such call that returns normally returns a done list that is entirely
true, regardless of agent positions.  (Every entry of the internal flag
list is forced true by the truncation loop.) -/
theorem c6_truncation_after_100 (c : Int) (s : State) (acts : List Int)
    (s' : State) (rew : List Int) (d : List Bool)
    (hdl : s.agentDones.length = nAgents)
    (hmax : maxSteps ≤ s.stepCount + 1)
    (hstep : step c s acts = .ok s' rew d) :
    (∀ i < nAgents, d.getD i false = true) ∧
    s'.stepCount = s.stepCount + 1 := by
  rw [step_eq] at hstep
  cases hloop : stepLoop { s with stepCount := s.stepCount + 1 }
      (List.replicate nAgents c) 0 acts with
  | raised e s1 =>
    rw [hloop] at hstep
    exact absurd hstep (by simp)
  | ok s1 rew1 =>
    rw [hloop] at hstep
    dsimp only at hstep
    obtain ⟨hl, hsc⟩ := stepLoop_preserve acts 0
      { s with stepCount := s.stepCount + 1 } (List.replicate nAgents c)
    rw [hloop] at hl hsc
    dsimp only [loopState] at hl hsc
    have hs1dl : s1.agentDones.length = nAgents := by
      rw [hl]
      exact hdl
    have hs1sc : s1.stepCount = s.stepCount + 1 := hsc
    rw [if_pos (by rw [hs1sc]; exact hmax)] at hstep
    obtain ⟨hs', _, hd⟩ := (StepResult.ok.injEq _ _ _ _ _ _).mp hstep
    constructor
    · rw [← hd]
      intro i hi
      exact setAllDone_getD hs1dl hi
    · rw [← hs']
      show s1.stepCount = s.stepCount + 1
      exact hs1sc

theorem c6_truncation_after_100_witness :
    (s99.agentDones.length = nAgents ∧ maxSteps ≤ s99.stepCount + 1 ∧
     step 0 s99 [4, 4, 4, 4] =
       .ok s100 [0, 0, 0, 0] [true, true, true, true]) ∧
    ((∀ i < nAgents, ([true, true, true, true] : List Bool).getD i false = true) ∧
     s100.stepCount = s99.stepCount + 1) :=
  ⟨⟨by decide, by decide, by decide⟩,
   c6_truncation_after_100 0 s99 [4, 4, 4, 4] s100
     [0, 0, 0, 0] [true, true, true, true] (by decide) (by decide) (by decide)⟩

/-- **C3.** Occupancy uniqueness is an invariant of `step`: from any
occupancy-consistent state, a `step` with valid actions (codes 0–4, at
most one per agent) returns normally, re-establishes full consistency
(each grid cell's agent code identifies the unique agent standing there),
and in particular distinct agents' stored positions remain pairwise
distinct.  Iterated over an episode's step calls, two agents never share
a live cell. -/
theorem c3_occupancy_uniqueness (c : Int) (s : State) (acts : List Int)
    (hc : Consistent s) (hv : ∀ a ∈ acts, 0 ≤ a ∧ a ≤ 4)
    (hlen : acts.length = nAgents) :
    ∃ s' rew d, step c s acts = .ok s' rew d ∧ Consistent s' ∧
      (∀ i < nAgents, ∀ j < nAgents, i ≠ j → posOf s' i ≠ posOf s' j) := by
  have hc0 : Consistent { s with stepCount := s.stepCount + 1 } := hc
  obtain ⟨s1, rew1, hloop, hc1, _⟩ :=
    stepLoop_ok acts 0 { s with stepCount := s.stepCount + 1 }
      (List.replicate nAgents c) hc0 hv (by omega)
  rw [step_eq, hloop]
  dsimp only
  by_cases htr : maxSteps ≤ s1.stepCount
  · rw [if_pos htr]
    have hc2 : Consistent { s1 with agentDones := setAllDone s1.agentDones } := by
      refine ⟨hc1.1, ?_, hc1.2.2.1, hc1.2.2.2.1, hc1.2.2.2.2.1, hc1.2.2.2.2.2⟩
      show (setAllDone s1.agentDones).length = nAgents
      rw [setAllDone_length]
      exact hc1.2.1
    exact ⟨_, _, _, rfl, hc2, consistent_distinct hc2⟩
  · rw [if_neg htr]
    exact ⟨_, _, _, rfl, hc1, consistent_distinct hc1⟩

theorem c3_occupancy_uniqueness_witness :
    (Consistent sWit ∧ (∀ a ∈ ([3, 2, 1, 0] : List Int), 0 ≤ a ∧ a ≤ 4) ∧
     ([3, 2, 1, 0] : List Int).length = nAgents) ∧
    (∃ s' rew d, step 0 sWit [3, 2, 1, 0] = .ok s' rew d ∧ Consistent s' ∧
      (∀ i < nAgents, ∀ j < nAgents, i ≠ j → posOf s' i ≠ posOf s' j)) :=
  ⟨⟨by decide, by decide, by decide⟩,
   c3_occupancy_uniqueness 0 sWit [3, 2, 1, 0] (by decide) (by decide) (by decide)⟩

/-- **C4.** Reward characterisation of `step`: under the between-steps
invariant "an agent standing on its goal is flagged done" (true in the
intended initial configuration, where starts and goals differ, and
re-established by every successful step), the reward returned for agent
`i` is 5 exactly when the step ends with agent `i` on its goal having
not started the step there — i.e. exactly on the step of first arrival —
and the configured step cost `c` on every other step, in particular on
every step after the agent is done (a done agent is skipped and never
moves, so it can never satisfy the arrival condition again). -/
theorem c4_reward_exactly_on_first_arrival (c : Int) (s : State) (acts : List Int)
    (s' : State) (rew : List Int) (d : List Bool)
    (hstep : step c s acts = .ok s' rew d)
    (hg : AtGoalDone s)
    (hdl : s.agentDones.length = nAgents)
    (hpl : s.agentPos.length = nAgents) :
    (∀ i < nAgents,
        rew.getD i 0 =
          (if posOf s' i = finalAgentPos i ∧ posOf s i ≠ finalAgentPos i
           then 5 else c)) ∧
    AtGoalDone s' := by
  rw [step_eq] at hstep
  cases hloop : stepLoop { s with stepCount := s.stepCount + 1 }
      (List.replicate nAgents c) 0 acts with
  | raised e s1 =>
    rw [hloop] at hstep
    exact absurd hstep (by simp)
  | ok s1 rew1 =>
    rw [hloop] at hstep
    dsimp only at hstep
    obtain ⟨_, ihB, ihG, ihDL, _, _⟩ :=
      stepLoop_reward acts 0 { s with stepCount := s.stepCount + 1 }
        (List.replicate nAgents c) s1 rew1 hloop hg hdl hpl
        (by rw [List.length_replicate])
    obtain ⟨hs', hrew, _⟩ := (StepResult.ok.injEq _ _ _ _ _ _).mp hstep
    by_cases htr : maxSteps ≤ s1.stepCount
    · rw [if_pos htr] at hs'
      constructor
      · intro i hi
        have hchar := ihB i hi (Nat.zero_le i)
        rw [getD_replicate c 0 hi] at hchar
        rw [← hrew, ← hs']
        exact hchar
      · rw [← hs']
        intro k hk _
        show (setAllDone s1.agentDones).getD k false = true
        exact setAllDone_getD ihDL hk
    · rw [if_neg htr] at hs'
      constructor
      · intro i hi
        have hchar := ihB i hi (Nat.zero_le i)
        rw [getD_replicate c 0 hi] at hchar
        rw [← hrew, ← hs']
        exact hchar
      · rw [← hs']
        exact ihG

theorem c4_reward_exactly_on_first_arrival_witness :
    (step 0 sNear [3, 4, 4, 4] =
        .ok { agentPos := [(0, 7), (1, 1), (0, 1), (1, 6)],
              fullObs := [[0, 3, -1, -1, -1, -1, 0, 1],
                          [0, 2, 0, 0, 0, 0, 4, 0]],
              stepCount := 1,
              agentDones := [true, false, false, false] }
          [5, 0, 0, 0] [true, false, false, false] ∧
     AtGoalDone sNear ∧
     sNear.agentDones.length = nAgents ∧ sNear.agentPos.length = nAgents) ∧
    ((∀ i < nAgents,
        ([5, 0, 0, 0] : List Int).getD i 0 =
          (if posOf { agentPos := [(0, 7), (1, 1), (0, 1), (1, 6)],
                      fullObs := [[0, 3, -1, -1, -1, -1, 0, 1],
                                  [0, 2, 0, 0, 0, 0, 4, 0]],
                      stepCount := 1,
                      agentDones := [true, false, false, false] } i = finalAgentPos i ∧
              posOf sNear i ≠ finalAgentPos i
           then 5 else 0)) ∧
     AtGoalDone { agentPos := [(0, 7), (1, 1), (0, 1), (1, 6)],
                  fullObs := [[0, 3, -1, -1, -1, -1, 0, 1],
                              [0, 2, 0, 0, 0, 0, 4, 0]],
                  stepCount := 1,
                  agentDones := [true, false, false, false] }) :=
  ⟨⟨by decide, by decide, by decide, by decide⟩,
   c4_reward_exactly_on_first_arrival 0 sNear [3, 4, 4, 4]
     { agentPos := [(0, 7), (1, 1), (0, 1), (1, 6)],
       fullObs := [[0, 3, -1, -1, -1, -1, 0, 1],
                   [0, 2, 0, 0, 0, 0, 4, 0]],
       stepCount := 1,
       agentDones := [true, false, false, false] }
     [5, 0, 0, 0] [true, false, false, false]
     (by decide) (by decide) (by decide) (by decide)⟩

/-- **C7 (counterexample).** The claim demands a fatal `InvalidAction`
for an out-of-range code supplied to *any* agent, "including an agent
whose done flag is already true".  Refuted: with agent 0 done, `step`
skips it without ever inspecting its action, so the out-of-range code 9
raises nothing and the call returns normally. -/
theorem c7_counterexample :
    ¬(0 ≤ (9 : Int) ∧ (9 : Int) ≤ 4) ∧
    sDone0.agentDones.getD 0 false = true ∧
    step 0 sDone0 [9, 4, 4, 4] =
      .ok { sDone0 with stepCount := 1 } [0, 0, 0, 0] [true, false, false, false] := by
  decide

/-- **C7 (amended).** An out-of-range action code raises
`Exception('Action Not found!')` only when it reaches a *non-done*
agent: if every agent before position `m` is done (hence skipped) and
agent `m` is not done, an invalid code for agent `m` aborts `step` with
the exception, leaving every position — in particular agent `m`'s —
unchanged (only the step counter was incremented).  For a done agent the
code is ignored entirely, without validation or error. -/
theorem c7_invalid_action_raises (c : Int) (s : State) (acts : List Int)
    (m : Nat) (a : Int)
    (hget : acts.get? m = some a)
    (hbad : ¬(0 ≤ a ∧ a ≤ 4))
    (hpre : ∀ j, j < m → s.agentDones.getD j false = true)
    (hnotdone : s.agentDones.getD m false = false)
    (hm : m < s.agentDones.length) :
    step c s acts = .raised .actionNotFound { s with stepCount := s.stepCount + 1 } ∧
    posOf { s with stepCount := s.stepCount + 1 } m = posOf s m := by
  have hloop := stepLoop_raises acts 0 { s with stepCount := s.stepCount + 1 }
    (List.replicate nAgents c) m a hget hbad
    (fun j hj => by rw [Nat.zero_add]; exact hpre j hj)
    (by rw [Nat.zero_add]; exact hnotdone)
    (by rw [Nat.zero_add]; exact hm)
  rw [step_eq, hloop]
  exact ⟨rfl, rfl⟩

theorem c7_invalid_action_raises_witness :
    (([7, 4, 4, 4] : List Int).get? 0 = some 7 ∧
     ¬(0 ≤ (7 : Int) ∧ (7 : Int) ≤ 4) ∧
     sWit.agentDones.getD 0 false = false ∧
     0 < sWit.agentDones.length) ∧
    (step 0 sWit [7, 4, 4, 4] =
        .raised .actionNotFound { sWit with stepCount := sWit.stepCount + 1 } ∧
     posOf { sWit with stepCount := sWit.stepCount + 1 } 0 = posOf sWit 0) :=
  ⟨⟨by decide, by decide, by decide, by decide⟩,
   c7_invalid_action_raises 0 sWit [7, 4, 4, 4] 0 7 (by decide) (by decide)
     (fun j hj => absurd hj (Nat.not_lt_zero j)) (by decide) (by decide)⟩

/-- **C8 (counterexample).** The claim demands a fatal
`ActionCountMismatch` before any mutation whenever the action list's
length differs from 4.  Refuted twice at one concrete state: a length-3
list is accepted silently (`enumerate` just iterates it; the call
returns normally, the fourth agent is simply not processed), and a
length-5 list raises `IndexError` (from `self._agent_dones[4]`) only
*after* the step counter was incremented — mutation has happened. -/
theorem c8_counterexample :
    ([4, 4, 4] : List Int).length ≠ nAgents ∧
    step 0 sWit [4, 4, 4] =
      .ok { sWit with stepCount := 1 } [0, 0, 0, 0] [false, false, false, false] ∧
    ([4, 4, 4, 4, 4] : List Int).length ≠ nAgents ∧
    step 0 sWit [4, 4, 4, 4, 4] = .raised .indexError { sWit with stepCount := 1 } := by
  decide

/-- **C8 (amended).** `step` performs no action-count validation.  From
any occupancy-consistent state, with valid action codes: a list of at
most 4 actions is processed normally (agents beyond the list are
skipped, no error); a list of more than 4 actions raises `IndexError`
when the loop reads `self._agent_dones[4]`, after the step counter was
already incremented. -/
theorem c8_no_length_validation (c : Int) (s : State) (acts : List Int)
    (hc : Consistent s) (hv : ∀ a ∈ acts, 0 ≤ a ∧ a ≤ 4) :
    (acts.length ≤ nAgents → ∃ s' rew d, step c s acts = .ok s' rew d) ∧
    (nAgents < acts.length →
      ∃ s', step c s acts = .raised .indexError s' ∧
        s'.stepCount = s.stepCount + 1) := by
  constructor
  · intro hle
    obtain ⟨s1, rew1, hloop, _, _⟩ :=
      stepLoop_ok acts 0 { s with stepCount := s.stepCount + 1 }
        (List.replicate nAgents c) hc hv (by omega)
    rw [step_eq, hloop]
    exact ⟨_, _, _, rfl⟩
  · intro hlt
    obtain ⟨s1, hloop, hsc⟩ :=
      stepLoop_overflow acts 0 { s with stepCount := s.stepCount + 1 }
        (List.replicate nAgents c) hc hv (by omega) (by omega)
    rw [step_eq, hloop]
    exact ⟨s1, rfl, hsc⟩

theorem c8_no_length_validation_witness :
    (Consistent sWit ∧ (∀ a ∈ ([4, 4, 4, 4, 4] : List Int), 0 ≤ a ∧ a ≤ 4)) ∧
    ((([4, 4, 4, 4, 4] : List Int).length ≤ nAgents →
        ∃ s' rew d, step 0 sWit [4, 4, 4, 4, 4] = .ok s' rew d) ∧
     (nAgents < ([4, 4, 4, 4, 4] : List Int).length →
        ∃ s', step 0 sWit [4, 4, 4, 4, 4] = .raised .indexError s' ∧
          s'.stepCount = sWit.stepCount + 1)) :=
  ⟨⟨by decide, by decide⟩,
   c8_no_length_validation 0 sWit [4, 4, 4, 4, 4] (by decide) (by decide)⟩

end CrossOver
